import Mathlib

/-!
Verification of the adaptive scheduler core of `tools/routers/router_dynamic.py`
(the bounded-counter version, which the specification adopts as canonical).

The embedding below translates the Python source directly:
* `Worker` with `inc_requests` / `dec_requests` / `can_accept` / `get_idle_duration`;
* `AdaSplitScheduler.try_get_worker` (home placement + RASP stealing);
* `dispatch_queue` (drain SHORT queue, then LONG queue);
* `AdaSplitScheduler.run_qhap_loop`'s per-tick body (`run_qhap_tick`);
* `estimate_token_count` and the classification in `chat_completions`;
* `process_request` / `run_task` forwarding with the `try/finally` capacity release.

Timestamps (Python `time.time()` floats) are modelled as integers: the scheduler
only ever orders timestamps and compares elapsed-time differences against the
constant thresholds, so exact integer arithmetic captures the logic; Python
integers are `Int`.  The asyncio event loop is modelled explicitly: `asyncio.create_task`
puts a coroutine in a pending list, and the coroutine's first synchronous segment
(up to its first `await`) runs when the task starts.  In particular
`process_request` performs `inc_requests` only when the created task starts,
exactly as in the source.
-/

namespace AdaSplit

/-- `class TaskType(Enum)` from the source. -/
inductive TaskType
  | LONG
  | SHORT
deriving DecidableEq, Repr

/-- Timestamps, as returned by `time.time()`. -/
abbrev Time := ℤ

/-- `HAP_HIGH_WATERMARK = 10`. -/
def HAP_HIGH_WATERMARK : ℕ := 10

/-- `HAP_LOW_WATERMARK = 2`. -/
def HAP_LOW_WATERMARK : ℕ := 2

/-- `HAP_COOLDOWN = 5` (seconds). -/
def HAP_COOLDOWN : Time := 5

/-- `RASP_STEAL_COOLDOWN = 2.0` (seconds). -/
def RASP_STEAL_COOLDOWN : Time := 2

/-- `WORKER_CONCURRENCY_LIMIT = 8`. -/
def WORKER_CONCURRENCY_LIMIT : ℤ := 8

/-- `STATIC_THRESHOLD = 3000`. -/
def STATIC_THRESHOLD : ℕ := 3000

/-- The `Worker` class: backend handle state (`url` is opaque to the scheduler
and omitted). -/
structure Worker where
  id : ℕ
  current_role : TaskType
  active_requests : ℤ
  last_active_time : Time
deriving DecidableEq, Repr

/-- `Worker.inc_requests`: `self.active_requests += 1`. -/
def Worker.inc_requests (w : Worker) : Worker :=
  { w with active_requests := w.active_requests + 1 }

/-- `Worker.dec_requests`:
`self.active_requests = max(0, self.active_requests - 1)` and, if the result is
zero, `self.last_active_time = time.time()` (the current time `now`). -/
def Worker.dec_requests (w : Worker) (now : Time) : Worker :=
  let n : ℤ := max 0 (w.active_requests - 1)
  { w with
      active_requests := n
      last_active_time := if n = 0 then now else w.last_active_time }

/-- `Worker.can_accept`: `self.active_requests < WORKER_CONCURRENCY_LIMIT`. -/
def Worker.can_accept (w : Worker) : Bool :=
  decide (w.active_requests < WORKER_CONCURRENCY_LIMIT)

/-- `Worker.get_idle_duration`: `0` while busy, else `time.time() - self.last_active_time`. -/
def Worker.get_idle_duration (w : Worker) (now : Time) : Time :=
  if 0 < w.active_requests then 0 else now - w.last_active_time

/-- One comparison step of Python's `min(..., key=lambda x: x.active_requests)`:
the running best is replaced only on a strictly smaller key, so ties keep the
earlier element. -/
def pickMin (acc x : Worker) : Worker :=
  if x.active_requests < acc.active_requests then x else acc

/-- Python's `min(candidates, key=lambda x: x.active_requests)` on a list of
workers: the first element attaining the minimal load.  `none` on the empty
list (Python would raise, but the source guards with `if candidates:`). -/
def pyMinByLoad : List Worker → Option Worker
  | [] => none
  | w :: ws => some (ws.foldl pickMin w)

/-- `AdaSplitScheduler.try_get_worker`.  Step 1: home placement — filter workers
with matching role and spare capacity, return the least-loaded one.  Step 2 (LONG
only): RASP stealing — scan workers in order and return the first SHORT-role
worker with capacity, provided the SHORT queue is empty and the worker has been
idle strictly longer than `RASP_STEAL_COOLDOWN`. -/
def try_get_worker (workers : List Worker) (queue_short : List ℕ)
    (task_type : TaskType) (now : Time) : Option Worker :=
  let candidates := workers.filter fun w =>
    decide (w.current_role = task_type) && w.can_accept
  match pyMinByLoad candidates with
  | some w => some w
  | none =>
      match task_type with
      | TaskType.LONG =>
          let short_q_empty := decide (queue_short.length = 0)
          workers.find? fun w =>
            decide (w.current_role = TaskType.SHORT) && w.can_accept &&
              (short_q_empty && decide (RASP_STEAL_COOLDOWN < w.get_idle_duration now))
      | TaskType.SHORT => none

/-- Scheduler state.  `queue_long` / `queue_short` hold request identifiers in
FIFO order (deque head = list head).  The extra fields model the asyncio event
loop: `pending` are `run_task` coroutines created by `dispatch_queue` but not yet
started (their `process_request` has not run, so no `inc_requests` yet);
`inflight` are requests whose `process_request` has performed `inc_requests` and
not yet reached its `finally`; `dispatchPending` counts `dispatch_queue` tasks
created by `process_request`'s `finally` and not yet run; `clock` is the last
observed `time.time()` value (time is monotone). -/
structure SchedState where
  workers : List Worker
  queue_long : List ℕ
  queue_short : List ℕ
  last_rebalance_time : Time
  pending : List (ℕ × ℕ)
  inflight : List (ℕ × ℕ)
  dispatchPending : ℕ
  clock : Time
deriving DecidableEq, Repr

/-- Number of workers whose `current_role` is `r` (the two generator-sums in
`get_partition_status`). -/
def countRole (r : TaskType) (ws : List Worker) : ℕ :=
  (ws.filter fun w => decide (w.current_role = r)).length

/-- `AdaSplitScheduler.get_partition_status`: `(n_long, n_short)`. -/
def get_partition_status (ws : List Worker) : ℕ × ℕ :=
  (countRole TaskType.LONG ws, countRole TaskType.SHORT ws)

/-- Mutating the worker object with identity `i` inside the scheduler's worker
list (`self.workers` holds object references; ids are distinct). -/
def updateWorker (ws : List Worker) (i : ℕ) (f : Worker → Worker) : List Worker :=
  ws.map fun w => if w.id = i then f w else w

/-- One iteration of `AdaSplitScheduler.run_qhap_loop` after the sleep: the
cooldown gate, then the scale-up branch (`q_long > HIGH ∧ n_short > 1`: first
SHORT worker becomes LONG), else the scale-down branch (`q_long < LOW ∧ n_long > 2`:
last LONG worker, scanning in reverse, becomes SHORT); any transition records
`last_rebalance_time = now`.  The tick touches nothing else. -/
def run_qhap_tick (s : SchedState) (now : Time) : SchedState :=
  if now - s.last_rebalance_time < HAP_COOLDOWN then s
  else
    let q_long_size := s.queue_long.length
    let n_long := countRole TaskType.LONG s.workers
    let n_short := countRole TaskType.SHORT s.workers
    if HAP_HIGH_WATERMARK < q_long_size ∧ 1 < n_short then
      match s.workers.find? (fun w => decide (w.current_role = TaskType.SHORT)) with
      | some target =>
          { s with
              workers := updateWorker s.workers target.id
                (fun w => { w with current_role := TaskType.LONG })
              last_rebalance_time := now }
      | none => s
    else if q_long_size < HAP_LOW_WATERMARK ∧ 2 < n_long then
      match s.workers.reverse.find? (fun w => decide (w.current_role = TaskType.LONG)) with
      | some target =>
          { s with
              workers := updateWorker s.workers target.id
                (fun w => { w with current_role := TaskType.SHORT })
              last_rebalance_time := now }
      | none => s
    else s

/-- The first `while` loop of `dispatch_queue`: while the SHORT queue is
non-empty, call `try_get_worker(SHORT)`; on success pop the head and create a
`run_task` (a placement `(worker id, request id)`); on failure stop.  Returns
the placements in creation order and the remaining SHORT queue.  The worker list
is not modified inside the loop (`inc_requests` happens only when the created
task later runs). -/
def drain_short (ws : List Worker) (now : Time) :
    List ℕ → List (ℕ × ℕ) × List ℕ
  | [] => ([], [])
  | r :: rest =>
      match try_get_worker ws (r :: rest) TaskType.SHORT now with
      | some w =>
          let p := drain_short ws now rest
          ((w.id, r) :: p.1, p.2)
      | none => ([], r :: rest)

/-- The second `while` loop of `dispatch_queue`, over the LONG queue; the live
`scheduler.queue_short` seen by `try_get_worker(LONG)` is whatever remained
after the SHORT loop. -/
def drain_long (ws : List Worker) (queue_short : List ℕ) (now : Time) :
    List ℕ → List (ℕ × ℕ) × List ℕ
  | [] => ([], [])
  | r :: rest =>
      match try_get_worker ws queue_short TaskType.LONG now with
      | some w =>
          let p := drain_long ws queue_short now rest
          ((w.id, r) :: p.1, p.2)
      | none => ([], r :: rest)

/-- `dispatch_queue`: drain SHORT, then LONG.  Returns (placements in creation
order, remaining SHORT queue, remaining LONG queue). -/
def dispatch_queue (ws : List Worker) (queue_short queue_long : List ℕ)
    (now : Time) : List (ℕ × ℕ) × List ℕ × List ℕ :=
  let ps := drain_short ws now queue_short
  let pl := drain_long ws ps.2 now queue_long
  (ps.1 ++ pl.1, ps.2, pl.2)

/-- `estimate_token_count(messages)`: `0` for a falsy (empty) list, otherwise
the length of the concatenated `content` strings, integer-divided by 4.
A message is modelled by its `str(m.get("content", ""))` value. -/
def estimate_token_count (messages : List String) : ℕ :=
  if messages = [] then 0
  else (String.join messages).length / 4

/-- The classification in `chat_completions`:
`LONG if token_len > STATIC_THRESHOLD else SHORT`, where
`token_len = estimate_token_count(body.get("messages", []))` (an absent
`messages` field is `none`). -/
def classify_request (messages : Option (List String)) : TaskType :=
  if STATIC_THRESHOLD < estimate_token_count (messages.getD []) then TaskType.LONG
  else TaskType.SHORT

/-! ## Forwarding (`process_request` / `run_task`) -/

/-- Outcome of `http_client.send` for one forwarded request: either the backend
answered (with some HTTP status code, passed through), or the send raised
(network error). -/
inductive ForwardOutcome
  | response (status : ℕ)
  | netError
deriving DecidableEq, Repr

/-- Capacity-accounting events emitted by `process_request` on one worker. -/
inductive CapEvent
  | inc
  | dec
deriving DecidableEq, Repr

/-- How `run_task` resolves the queued caller's future: `set_result` with a
streamed response (carrying the backend's status code) or `set_exception`. -/
inductive FutureResolution
  | result (status : ℕ)
  | exception
deriving DecidableEq, Repr

/-- The body of `process_request`: `inc_requests`, then forward; the `finally`
block runs `dec_requests` on every path — both when `send` returns a response
(any status code; the response is passed through untouched) and when it raises.
Returns the updated worker, the capacity events in order, and either the
response status or the propagated exception. -/
def process_request (w : Worker) (outcome : ForwardOutcome) (now : Time) :
    Worker × List CapEvent × Except Unit ℕ :=
  let w1 := w.inc_requests
  match outcome with
  | ForwardOutcome.response status =>
      (w1.dec_requests now, [CapEvent.inc, CapEvent.dec], Except.ok status)
  | ForwardOutcome.netError =>
      (w1.dec_requests now, [CapEvent.inc, CapEvent.dec], Except.error ())

/-- `run_task`: awaits `process_request` and resolves the future — `set_result`
on success, `set_exception` on any exception; the exception is swallowed here,
so the task itself completes normally either way. -/
def run_task (w : Worker) (outcome : ForwardOutcome) (now : Time) :
    Worker × List CapEvent × FutureResolution :=
  match process_request w outcome now with
  | (w', evs, Except.ok status) => (w', evs, FutureResolution.result status)
  | (w', evs, Except.error _) => (w', evs, FutureResolution.exception)

/-! ## The event-loop step model

Each action below is one synchronous segment of the program (a stretch of code
containing no `await` on the shared scheduler state), which the single-threaded
asyncio event loop runs atomically:

* `admitRequest t rid` — the synchronous part of `chat_completions` for a request
  classified as `t`: call `try_get_worker`; on success `process_request` starts
  inline (it is awaited directly), performing `inc_requests` before suspending
  in `send`; on failure append the request to its class queue.
* `release wid rid` — the `finally` block of an in-flight `process_request`:
  `dec_requests` on its worker, then `asyncio.create_task(dispatch_queue())`.
* `runDispatch` — a created `dispatch_queue` task runs (it contains no `await`,
  so the whole drain is atomic); the `run_task`s it creates become pending.
* `taskStart wid rid` — a pending `run_task` starts: its `process_request`
  performs `inc_requests` and suspends in `send` (the request is now in flight).
* `tick` — one iteration of `run_qhap_loop` after its sleep.
-/

inductive Action
  | admitRequest (t : TaskType) (rid : ℕ) (now : Time)
  | release (wid rid : ℕ) (now : Time)
  | runDispatch (now : Time)
  | taskStart (wid rid : ℕ) (now : Time)
  | tick (now : Time)
deriving DecidableEq, Repr

/-- The synchronous admission path of `chat_completions` (after classification). -/
def admitRequest (s : SchedState) (t : TaskType) (rid : ℕ) (now : Time) : SchedState :=
  match try_get_worker s.workers s.queue_short t now with
  | some w =>
      { s with
          workers := updateWorker s.workers w.id Worker.inc_requests
          inflight := (w.id, rid) :: s.inflight }
  | none =>
      match t with
      | TaskType.LONG => { s with queue_long := s.queue_long ++ [rid] }
      | TaskType.SHORT => { s with queue_short := s.queue_short ++ [rid] }

/-- The `finally` block of `process_request` for in-flight request `rid` on
worker `wid`: `dec_requests`, then create a `dispatch_queue` task. -/
def release (s : SchedState) (wid rid : ℕ) (now : Time) : SchedState :=
  { s with
      workers := updateWorker s.workers wid (fun w => w.dec_requests now)
      inflight := s.inflight.erase (wid, rid)
      dispatchPending := s.dispatchPending + 1 }

/-- A created `dispatch_queue` task runs to completion. -/
def runDispatch (s : SchedState) (now : Time) : SchedState :=
  let d := dispatch_queue s.workers s.queue_short s.queue_long now
  { s with
      queue_short := d.2.1
      queue_long := d.2.2
      pending := s.pending ++ d.1
      dispatchPending := s.dispatchPending - 1 }

/-- A pending `run_task` starts: `process_request` runs `inc_requests` and
suspends; the request becomes in-flight. -/
def taskStart (s : SchedState) (wid rid : ℕ) : SchedState :=
  { s with
      workers := updateWorker s.workers wid Worker.inc_requests
      pending := s.pending.erase (wid, rid)
      inflight := (wid, rid) :: s.inflight }

/-- When an action is enabled: time never runs backwards, a release needs its
request in flight, a dispatch run needs a created dispatch task, a task start
needs its pending task. -/
def guard (a : Action) (s : SchedState) : Prop :=
  match a with
  | Action.admitRequest _ _ now => s.clock ≤ now
  | Action.release wid rid now => s.clock ≤ now ∧ (wid, rid) ∈ s.inflight
  | Action.runDispatch now => s.clock ≤ now ∧ 0 < s.dispatchPending
  | Action.taskStart wid rid now => s.clock ≤ now ∧ (wid, rid) ∈ s.pending
  | Action.tick now => s.clock ≤ now

instance (a : Action) (s : SchedState) : Decidable (guard a s) := by
  cases a <;> simp only [guard] <;> infer_instance

/-- Effect of an action (the guard aside); every action advances the clock. -/
def applyAction (a : Action) (s : SchedState) : SchedState :=
  match a with
  | Action.admitRequest t rid now => { admitRequest s t rid now with clock := now }
  | Action.release wid rid now => { release s wid rid now with clock := now }
  | Action.runDispatch now => { runDispatch s now with clock := now }
  | Action.taskStart wid rid now => { taskStart s wid rid with clock := now }
  | Action.tick now => { run_qhap_tick s now with clock := now }

/-- `Worker(i+1, url)` with the startup role assignment applied. -/
def mkWorker (i : ℕ) (r : TaskType) : Worker :=
  { id := i, current_role := r, active_requests := 0, last_active_time := 0 }

/-- `AdaSplitScheduler.__init__`: four workers, roles LONG, LONG, SHORT, SHORT,
empty queues, `last_rebalance_time = time.time()` (process start, taken as 0). -/
def initState : SchedState :=
  { workers :=
      [mkWorker 1 TaskType.LONG, mkWorker 2 TaskType.LONG,
       mkWorker 3 TaskType.SHORT, mkWorker 4 TaskType.SHORT]
    queue_long := []
    queue_short := []
    last_rebalance_time := 0
    pending := []
    inflight := []
    dispatchPending := 0
    clock := 0 }

/-- States reachable from `initState` by enabled actions. -/
inductive Reachable : SchedState → Prop
  | init : Reachable initState
  | step (a : Action) (s : SchedState) :
      Reachable s → guard a s → Reachable (applyAction a s)

/-- Run a concrete list of actions. -/
def runTrace (s : SchedState) : List Action → SchedState
  | [] => s
  | a :: as' => runTrace (applyAction a s) as'

/-- All guards hold along a trace. -/
def TraceOk (s : SchedState) : List Action → Prop
  | [] => True
  | a :: as' => guard a s ∧ TraceOk (applyAction a s) as'

instance (s : SchedState) (as' : List Action) : Decidable (TraceOk s as') := by
  induction as' generalizing s with
  | nil => exact inferInstanceAs (Decidable True)
  | cons a tl ih =>
      exact @instDecidableAnd _ _ _ (ih (applyAction a s))

/-- A concrete execution: sixteen SHORT requests admitted directly (filling
workers 3 and 4 to the concurrency limit of 8), two more SHORT requests
queued, then one in-flight request on worker 3 completes (its `finally` runs
`dec_requests` and creates a `dispatch_queue` task), the dispatch task runs
(placing both queued requests on worker 3, whose stale `active_requests = 7`
passes `can_accept` twice), and finally both created `run_task`s start. -/
def c1Trace : List Action :=
  [Action.admitRequest TaskType.SHORT 1 0, Action.admitRequest TaskType.SHORT 2 0,
   Action.admitRequest TaskType.SHORT 3 0, Action.admitRequest TaskType.SHORT 4 0,
   Action.admitRequest TaskType.SHORT 5 0, Action.admitRequest TaskType.SHORT 6 0,
   Action.admitRequest TaskType.SHORT 7 0, Action.admitRequest TaskType.SHORT 8 0,
   Action.admitRequest TaskType.SHORT 9 0, Action.admitRequest TaskType.SHORT 10 0,
   Action.admitRequest TaskType.SHORT 11 0, Action.admitRequest TaskType.SHORT 12 0,
   Action.admitRequest TaskType.SHORT 13 0, Action.admitRequest TaskType.SHORT 14 0,
   Action.admitRequest TaskType.SHORT 15 0, Action.admitRequest TaskType.SHORT 16 0,
   Action.admitRequest TaskType.SHORT 17 0, Action.admitRequest TaskType.SHORT 18 0,
   Action.release 3 1 1, Action.runDispatch 1,
   Action.taskStart 3 17 1, Action.taskStart 3 18 1]

/-- A concrete execution: sixteen LONG requests admitted directly (filling
workers 1 and 2 to the concurrency limit), then eleven LONG requests queued
(backlog 11 > `HAP_HIGH_WATERMARK`).  The rebalancer tick at `t = 10` is then
past the cooldown and performs a scale-up transition. -/
def c2Trace : List Action :=
  [Action.admitRequest TaskType.LONG 1 0, Action.admitRequest TaskType.LONG 2 0,
   Action.admitRequest TaskType.LONG 3 0, Action.admitRequest TaskType.LONG 4 0,
   Action.admitRequest TaskType.LONG 5 0, Action.admitRequest TaskType.LONG 6 0,
   Action.admitRequest TaskType.LONG 7 0, Action.admitRequest TaskType.LONG 8 0,
   Action.admitRequest TaskType.LONG 9 0, Action.admitRequest TaskType.LONG 10 0,
   Action.admitRequest TaskType.LONG 11 0, Action.admitRequest TaskType.LONG 12 0,
   Action.admitRequest TaskType.LONG 13 0, Action.admitRequest TaskType.LONG 14 0,
   Action.admitRequest TaskType.LONG 15 0, Action.admitRequest TaskType.LONG 16 0,
   Action.admitRequest TaskType.LONG 17 0, Action.admitRequest TaskType.LONG 18 0,
   Action.admitRequest TaskType.LONG 19 0, Action.admitRequest TaskType.LONG 20 0,
   Action.admitRequest TaskType.LONG 21 0, Action.admitRequest TaskType.LONG 22 0,
   Action.admitRequest TaskType.LONG 23 0, Action.admitRequest TaskType.LONG 24 0,
   Action.admitRequest TaskType.LONG 25 0, Action.admitRequest TaskType.LONG 26 0,
   Action.admitRequest TaskType.LONG 27 0]

/-- The structural invariant of the worker pool: four workers, distinct
identities, and at least one SHORT-role worker. -/
def WorkersInv (ws : List Worker) : Prop :=
  ws.length = 4 ∧ (ws.map Worker.id).Nodup ∧ 1 ≤ countRole TaskType.SHORT ws

/-- A fixture: both LONG workers saturated, worker 3 idle since `t = 7`,
worker 4 idle since `t = 9`. -/
def stealFixture : List Worker :=
  [{ id := 1, current_role := TaskType.LONG, active_requests := 8, last_active_time := 0 },
   { id := 2, current_role := TaskType.LONG, active_requests := 8, last_active_time := 0 },
   { id := 3, current_role := TaskType.SHORT, active_requests := 0, last_active_time := 7 },
   { id := 4, current_role := TaskType.SHORT, active_requests := 0, last_active_time := 9 }]

/-- A fixture with a heavy LONG backlog: both LONG workers saturated and eleven
LONG requests queued; the rebalancer last acted at `t = 0`. -/
def backlogFixture : SchedState :=
  { workers :=
      [{ id := 1, current_role := TaskType.LONG, active_requests := 8, last_active_time := 0 },
       { id := 2, current_role := TaskType.LONG, active_requests := 8, last_active_time := 0 },
       { id := 3, current_role := TaskType.SHORT, active_requests := 0, last_active_time := 0 },
       { id := 4, current_role := TaskType.SHORT, active_requests := 0, last_active_time := 0 }]
    queue_long := [1, 2, 3, 4, 5, 6, 7, 8, 9, 10, 11]
    queue_short := []
    last_rebalance_time := 0
    pending := []
    inflight := []
    dispatchPending := 0
    clock := 9 }

/-- A fixture: a single idle SHORT worker. -/
def idleWorker : Worker :=
  { id := 3, current_role := TaskType.SHORT, active_requests := 0, last_active_time := 0 }

/-- A fixture for home placement: worker 3 more loaded than worker 4. -/
def homeFixture : List Worker :=
  [{ id := 1, current_role := TaskType.LONG, active_requests := 2, last_active_time := 0 },
   { id := 2, current_role := TaskType.LONG, active_requests := 8, last_active_time := 0 },
   { id := 3, current_role := TaskType.SHORT, active_requests := 5, last_active_time := 0 },
   { id := 4, current_role := TaskType.SHORT, active_requests := 3, last_active_time := 0 }]

theorem runTrace_reachable (as' : List Action) (s : SchedState)
    (hs : Reachable s) (h : TraceOk s as') : Reachable (runTrace s as') := by
  induction as' generalizing s with
  | nil => exact hs
  | cons a tl ih =>
      exact ih (applyAction a s) (Reachable.step a s hs h.1) h.2

/-! ## Facts about `pyMinByLoad` (Python's first-minimum semantics) -/

theorem foldl_pickMin_mem (a : Worker) (l : List Worker) : l.foldl pickMin a ∈ a :: l := by
  induction l generalizing a with
  | nil => simp [List.foldl]
  | cons b tl ih =>
      simp only [List.foldl_cons]
      rcases List.mem_cons.mp (ih (pickMin a b)) with h | h
      · have h2 : pickMin a b = a ∨ pickMin a b = b := by
          unfold pickMin
          split
          · exact Or.inr rfl
          · exact Or.inl rfl
        rcases h2 with h2 | h2 <;> rw [h2] at h ⊢ <;> rw [h] <;> simp
      · exact List.mem_cons.mpr (Or.inr (List.mem_cons.mpr (Or.inr h)))

theorem foldl_pickMin_le (a : Worker) (l : List Worker) :
    ∀ x ∈ a :: l, (l.foldl pickMin a).active_requests ≤ x.active_requests := by
  induction l generalizing a with
  | nil =>
      intro x hx
      simp only [List.mem_singleton] at hx
      simp [hx, List.foldl]
  | cons b tl ih =>
      intro x hx
      simp only [List.foldl_cons]
      have hab : (pickMin a b).active_requests ≤ a.active_requests ∧
          (pickMin a b).active_requests ≤ b.active_requests := by
        unfold pickMin
        split <;> constructor <;> omega
      have hself := ih (pickMin a b) (pickMin a b) (List.mem_cons_self _ _)
      rcases List.mem_cons.mp hx with rfl | hx'
      · exact le_trans hself hab.1
      rcases List.mem_cons.mp hx' with rfl | hx''
      · exact le_trans hself hab.2
      · exact ih (pickMin a b) x (List.mem_cons.mpr (Or.inr hx''))

theorem foldl_pickMin_first (a : Worker) (l : List Worker)
    (hp : (a :: l).Pairwise fun u v => u.id < v.id) :
    ∀ x ∈ a :: l, x.active_requests = (l.foldl pickMin a).active_requests →
      (l.foldl pickMin a).id ≤ x.id := by
  induction l generalizing a with
  | nil =>
      intro x hx _
      simp only [List.mem_singleton] at hx
      simp [hx, List.foldl]
  | cons b tl ih =>
      have hpab : ∀ v ∈ tl, (pickMin a b).id < v.id := by
        intro v hv
        rcases List.pairwise_cons.mp hp with ⟨ha, hp2⟩
        rcases List.pairwise_cons.mp hp2 with ⟨hb, _⟩
        unfold pickMin
        split
        · exact hb v hv
        · exact ha v (List.mem_cons.mpr (Or.inr hv))
      have hp' : (pickMin a b :: tl).Pairwise fun u v => u.id < v.id :=
        List.pairwise_cons.mpr
          ⟨hpab, (List.pairwise_cons.mp ((List.pairwise_cons.mp hp).2)).2⟩
      have hr := ih (pickMin a b) hp'
      have hle := foldl_pickMin_le (pickMin a b) tl
      have hab : a.id < b.id := (List.pairwise_cons.mp hp).1 b (List.mem_cons_self _ _)
      intro x hx heq
      simp only [List.foldl_cons] at heq ⊢
      rcases List.mem_cons.mp hx with hxa | hx'
      · subst hxa
        by_cases hba : b.active_requests < x.active_requests
        · have hpb : pickMin x b = b := by unfold pickMin; simp [hba]
          have h2 := hle (pickMin x b) (List.mem_cons_self _ _)
          have h2b : (pickMin x b).active_requests = b.active_requests := by rw [hpb]
          omega
        · have hpa : pickMin x b = x := by unfold pickMin; simp [hba]
          exact hr x (by rw [hpa]; exact List.mem_cons_self _ _) heq
      rcases List.mem_cons.mp hx' with hxb | hx''
      · subst hxb
        by_cases hba : x.active_requests < a.active_requests
        · have hpb : pickMin a x = x := by unfold pickMin; simp [hba]
          exact hr x (by rw [hpb]; exact List.mem_cons_self _ _) heq
        · have hpa : pickMin a x = a := by unfold pickMin; simp [hba]
          have h2 := hle (pickMin a x) (List.mem_cons_self _ _)
          have h2a : (pickMin a x).active_requests = a.active_requests := by rw [hpa]
          have haeq : a.active_requests = (tl.foldl pickMin (pickMin a x)).active_requests := by
            omega
          have h3 := hr a (by rw [hpa]; exact List.mem_cons_self _ _) haeq
          omega
      · exact hr x (List.mem_cons.mpr (Or.inr hx'')) heq

theorem pyMinByLoad_spec (l : List Worker) (w : Worker) (h : pyMinByLoad l = some w) :
    w ∈ l ∧ ∀ x ∈ l, w.active_requests ≤ x.active_requests := by
  cases l with
  | nil => cases h
  | cons a tl =>
      simp only [pyMinByLoad, Option.some.injEq] at h
      subst h
      exact ⟨foldl_pickMin_mem a tl, foldl_pickMin_le a tl⟩

theorem pyMinByLoad_first (l : List Worker) (w : Worker)
    (hp : l.Pairwise fun u v => u.id < v.id) (h : pyMinByLoad l = some w) :
    ∀ x ∈ l, x.active_requests = w.active_requests → w.id ≤ x.id := by
  cases l with
  | nil => cases h
  | cons a tl =>
      simp only [pyMinByLoad, Option.some.injEq] at h
      subst h
      exact foldl_pickMin_first a tl hp

/-! ## Facts about `countRole` and `updateWorker` -/

theorem countRole_cons (r : TaskType) (a : Worker) (l : List Worker) :
    countRole r (a :: l) = (if a.current_role = r then 1 else 0) + countRole r l := by
  by_cases h : a.current_role = r <;>
    simp [countRole, List.filter_cons, h, Nat.add_comm]

theorem countRole_total (ws : List Worker) :
    countRole TaskType.LONG ws + countRole TaskType.SHORT ws = ws.length := by
  induction ws with
  | nil => simp [countRole]
  | cons a tl ih =>
      cases ha : a.current_role <;> simp [countRole_cons, ha] <;> omega

theorem updateWorker_cons (a : Worker) (tl : List Worker) (i : ℕ) (f : Worker → Worker) :
    updateWorker (a :: tl) i f = (if a.id = i then f a else a) :: updateWorker tl i f := rfl

theorem updateWorker_length (ws : List Worker) (i : ℕ) (f : Worker → Worker) :
    (updateWorker ws i f).length = ws.length := by
  simp [updateWorker]

theorem updateWorker_id_map (ws : List Worker) (i : ℕ) (f : Worker → Worker)
    (hf : ∀ w, (f w).id = w.id) :
    (updateWorker ws i f).map Worker.id = ws.map Worker.id := by
  induction ws with
  | nil => rfl
  | cons a tl ih =>
      rw [updateWorker_cons]
      by_cases h : a.id = i <;> simp [h, hf, ih]

theorem updateWorker_not_mem (ws : List Worker) (i : ℕ) (f : Worker → Worker)
    (h : ∀ v ∈ ws, v.id ≠ i) :
    updateWorker ws i f = ws := by
  induction ws with
  | nil => rfl
  | cons a tl ih =>
      rw [updateWorker_cons]
      have ha := h a (List.mem_cons_self _ _)
      simp only [ha, if_false]
      rw [ih fun v hv => h v (List.mem_cons.mpr (Or.inr hv))]

theorem countRole_updateWorker_role_eq (ws : List Worker) (i : ℕ) (f : Worker → Worker)
    (r : TaskType) (hf : ∀ w, (f w).current_role = w.current_role) :
    countRole r (updateWorker ws i f) = countRole r ws := by
  induction ws with
  | nil => rfl
  | cons a tl ih =>
      rw [updateWorker_cons, countRole_cons, countRole_cons, ih]
      by_cases h : a.id = i <;> simp [h, hf]

theorem countRole_update_role (ws : List Worker) (w : Worker) (r' r : TaskType)
    (hmem : w ∈ ws) (hnd : (ws.map Worker.id).Nodup) :
    countRole r (updateWorker ws w.id fun v => { v with current_role := r' }) +
        (if w.current_role = r then 1 else 0) =
      countRole r ws + (if r' = r then 1 else 0) := by
  induction ws with
  | nil => cases hmem
  | cons a tl ih =>
      have hnd' : a.id ∉ tl.map Worker.id ∧ (tl.map Worker.id).Nodup := by
        rw [List.map_cons, List.nodup_cons] at hnd
        exact hnd
      rw [updateWorker_cons, countRole_cons, countRole_cons]
      rcases List.mem_cons.mp hmem with hwa | hw'
      · subst hwa
        have hni : ∀ v ∈ tl, v.id ≠ w.id := by
          intro v hv he
          exact hnd'.1 (he ▸ List.mem_map_of_mem Worker.id hv)
        rw [updateWorker_not_mem tl w.id _ hni, if_pos rfl]
        by_cases h1 : r' = r <;> by_cases h2 : w.current_role = r <;>
          simp [h1, h2] <;> omega
      · have hane : a.id ≠ w.id := by
          intro he
          exact hnd'.1 (he ▸ List.mem_map_of_mem Worker.id hw')
        rw [if_neg hane]
        have ihh := ih hw' hnd'.2
        omega

/-! ## Preservation of the worker-pool invariant -/

theorem workersInv_updateWorker (ws : List Worker) (i : ℕ) (f : Worker → Worker)
    (hid : ∀ w, (f w).id = w.id) (hrole : ∀ w, (f w).current_role = w.current_role)
    (h : WorkersInv ws) : WorkersInv (updateWorker ws i f) := by
  refine ⟨?_, ?_, ?_⟩
  · rw [updateWorker_length]; exact h.1
  · rw [updateWorker_id_map ws i f hid]; exact h.2.1
  · rw [countRole_updateWorker_role_eq ws i f _ hrole]; exact h.2.2

theorem workersInv_tick (s : SchedState) (now : Time) (h : WorkersInv s.workers) :
    WorkersInv (run_qhap_tick s now).workers := by
  simp only [run_qhap_tick]
  split_ifs with h1 h2 h3
  · exact h
  · cases hf : s.workers.find? (fun w => decide (w.current_role = TaskType.SHORT)) with
    | none => simp only [hf]; exact h
    | some target =>
        simp only [hf]
        have hmem := List.mem_of_find?_eq_some hf
        have hrole : target.current_role = TaskType.SHORT := by
          have hp := List.find?_some hf
          simpa using hp
        have hcount := countRole_update_role s.workers target TaskType.LONG TaskType.SHORT
          hmem h.2.1
        rw [hrole, if_pos rfl, if_neg (by decide)] at hcount
        refine ⟨?_, ?_, ?_⟩
        · rw [updateWorker_length]; exact h.1
        · rw [updateWorker_id_map s.workers target.id
            (fun v => { v with current_role := TaskType.LONG }) fun w => rfl]
          exact h.2.1
        · have hshort : 1 < countRole TaskType.SHORT s.workers := h2.2
          omega
  · cases hf : s.workers.reverse.find? (fun w => decide (w.current_role = TaskType.LONG)) with
    | none => simp only [hf]; exact h
    | some target =>
        simp only [hf]
        have hmem : target ∈ s.workers :=
          List.mem_reverse.mp (List.mem_of_find?_eq_some hf)
        have hrole : target.current_role = TaskType.LONG := by
          have hp := List.find?_some hf
          simpa using hp
        have hcount := countRole_update_role s.workers target TaskType.SHORT TaskType.SHORT
          hmem h.2.1
        rw [hrole, if_pos rfl, if_neg (by decide)] at hcount
        refine ⟨?_, ?_, ?_⟩
        · rw [updateWorker_length]; exact h.1
        · rw [updateWorker_id_map s.workers target.id
            (fun v => { v with current_role := TaskType.SHORT }) fun w => rfl]
          exact h.2.1
        · omega
  · exact h

theorem workersInv_applyAction (a : Action) (s : SchedState)
    (h : WorkersInv s.workers) : WorkersInv (applyAction a s).workers := by
  cases a with
  | admitRequest t rid now =>
      show WorkersInv (admitRequest s t rid now).workers
      unfold admitRequest
      cases htw : try_get_worker s.workers s.queue_short t now with
      | some w =>
          exact workersInv_updateWorker _ _ _ (fun v => rfl) (fun v => rfl) h
      | none => cases t <;> exact h
  | release wid rid now =>
      exact workersInv_updateWorker _ _ _ (fun v => rfl) (fun v => rfl) h
  | runDispatch now => exact h
  | taskStart wid rid now =>
      exact workersInv_updateWorker _ _ _ (fun v => rfl) (fun v => rfl) h
  | tick now => exact workersInv_tick s now h

theorem reachable_workersInv (s : SchedState) (h : Reachable s) :
    WorkersInv s.workers := by
  induction h with
  | init => exact ⟨rfl, by decide, by decide⟩
  | step a s hs hg ih => exact workersInv_applyAction a s ih

/-! ## Claim theorems -/

/-- C3: in every state reachable from the initial configuration (4 handles,
2 LONG / 2 SHORT) under admission, dispatch, and rebalancer steps,
`n_long + n_short = 4` and `n_short ≥ 1`, counting handles by current role. -/
theorem C3_partition_invariant (s : SchedState) (h : Reachable s) :
    countRole TaskType.LONG s.workers + countRole TaskType.SHORT s.workers = 4 ∧
      1 ≤ countRole TaskType.SHORT s.workers := by
  have hi := reachable_workersInv s h
  exact ⟨by rw [countRole_total]; exact hi.1, hi.2.2⟩

/-- Witness for C3 at the initial state. -/
theorem C3_partition_invariant_witness :
    countRole TaskType.LONG initState.workers +
        countRole TaskType.SHORT initState.workers = 4 ∧
      1 ≤ countRole TaskType.SHORT initState.workers :=
  C3_partition_invariant initState Reachable.init

/-- C4: `try_get_worker` returns a handle whose role differs from the requested
class only when the class is LONG, the SHORT queue is empty, and the handle's
idle duration strictly exceeds the steal cooldown; in particular
`try_get_worker SHORT` never returns a LONG-role handle, and if the SHORT queue
is non-empty or no SHORT worker is idle past the cooldown, `try_get_worker LONG`
cannot return a SHORT-role handle. -/
theorem C4_stealing_conditions (ws : List Worker) (qs : List ℕ) (t : TaskType)
    (now : Time) (w : Worker)
    (h : try_get_worker ws qs t now = some w) (hr : w.current_role ≠ t) :
    t = TaskType.LONG ∧ w.current_role = TaskType.SHORT ∧ qs = [] ∧
      RASP_STEAL_COOLDOWN < w.get_idle_duration now := by
  simp only [try_get_worker] at h
  cases hm : pyMinByLoad (ws.filter fun v => decide (v.current_role = t) && v.can_accept) with
  | some v =>
      rw [hm] at h
      simp only [Option.some.injEq] at h
      subst h
      have hv := (pyMinByLoad_spec _ _ hm).1
      have hv2 := List.mem_filter.mp hv
      simp only [Bool.and_eq_true, decide_eq_true_eq] at hv2
      exact absurd hv2.2.1 hr
  | none =>
      rw [hm] at h
      cases t with
      | SHORT => simp at h
      | LONG =>
          have hp := List.find?_some h
          simp only [Bool.and_eq_true, decide_eq_true_eq] at hp
          exact ⟨rfl, hp.1.1, List.length_eq_zero.mp hp.2.1, hp.2.2⟩

/-- Witness for C4: worker 3 of `stealFixture` is stolen for a LONG request. -/
theorem C4_stealing_conditions_witness :
    TaskType.LONG = TaskType.LONG ∧
      ({ id := 3, current_role := TaskType.SHORT, active_requests := 0,
         last_active_time := 7 } : Worker).current_role = TaskType.SHORT ∧
      ([] : List ℕ) = [] ∧
      RASP_STEAL_COOLDOWN <
        Worker.get_idle_duration
          { id := 3, current_role := TaskType.SHORT, active_requests := 0,
            last_active_time := 7 } 10 :=
  C4_stealing_conditions stealFixture [] TaskType.LONG 10
    { id := 3, current_role := TaskType.SHORT, active_requests := 0, last_active_time := 7 }
    (by decide) (by decide)

/-- C5: whenever some handle with the requested role has free capacity,
`try_get_worker` returns a handle of that matching role (never a stolen one),
and among matching-role handles with capacity it returns one of minimal
`active_requests`, ties broken by the lowest id (ids increase along the fixed
worker ordering). -/
theorem C5_home_first_least_loaded (ws : List Worker) (qs : List ℕ) (t : TaskType)
    (now : Time) (hids : ws.Pairwise fun u v => u.id < v.id)
    (hex : ∃ v ∈ ws, v.current_role = t ∧ v.can_accept = true) :
    ∃ w, try_get_worker ws qs t now = some w ∧
      w.current_role = t ∧ w.can_accept = true ∧
      ∀ v ∈ ws, v.current_role = t → v.can_accept = true →
        w.active_requests ≤ v.active_requests ∧
          (v.active_requests = w.active_requests → w.id ≤ v.id) := by
  obtain ⟨v, hv, hvr, hvc⟩ := hex
  have hvf : v ∈ ws.filter fun u => decide (u.current_role = t) && u.can_accept :=
    List.mem_filter.mpr ⟨hv, by simp [hvr, hvc]⟩
  cases hm : pyMinByLoad (ws.filter fun u => decide (u.current_role = t) && u.can_accept) with
  | none =>
      cases hc : ws.filter fun u => decide (u.current_role = t) && u.can_accept with
      | nil => rw [hc] at hvf; cases hvf
      | cons a l => rw [hc] at hm; simp [pyMinByLoad] at hm
  | some w =>
      have hspec := pyMinByLoad_spec _ _ hm
      have hwf := List.mem_filter.mp hspec.1
      have hwp : w.current_role = t ∧ w.can_accept = true := by
        have h2 := hwf.2
        simp only [Bool.and_eq_true, decide_eq_true_eq] at h2
        exact h2
      have hpair :
          (ws.filter fun u => decide (u.current_role = t) && u.can_accept).Pairwise
            fun u v => u.id < v.id :=
        List.Pairwise.sublist (List.filter_sublist ws) hids
      refine ⟨w, ?_, hwp.1, hwp.2, ?_⟩
      · simp only [try_get_worker]
        rw [hm]
      · intro u hu hur huc
        have huf : u ∈ ws.filter fun x => decide (x.current_role = t) && x.can_accept :=
          List.mem_filter.mpr ⟨hu, by simp [hur, huc]⟩
        exact ⟨hspec.2 u huf, fun he => pyMinByLoad_first _ _ hpair hm u huf he⟩

/-- Witness for C5 on `homeFixture` with a SHORT request: worker 4 (load 3)
beats worker 3 (load 5). -/
theorem C5_home_first_least_loaded_witness :
    ∃ w, try_get_worker homeFixture [] TaskType.SHORT 0 = some w ∧
      w.current_role = TaskType.SHORT ∧ w.can_accept = true ∧
      ∀ v ∈ homeFixture, v.current_role = TaskType.SHORT → v.can_accept = true →
        w.active_requests ≤ v.active_requests ∧
          (v.active_requests = w.active_requests → w.id ≤ v.id) :=
  C5_home_first_least_loaded homeFixture [] TaskType.SHORT 0 (by decide) (by decide)

theorem drain_short_spec (ws : List Worker) (now : Time) (q : List ℕ) :
    ∃ k, k ≤ q.length ∧
      (drain_short ws now q).1.map Prod.snd = q.take k ∧
      (drain_short ws now q).2 = q.drop k ∧
      ((drain_short ws now q).2 = [] ∨
        try_get_worker ws (drain_short ws now q).2 TaskType.SHORT now = none) := by
  induction q with
  | nil => exact ⟨0, by simp [drain_short]⟩
  | cons r rest ih =>
      cases h : try_get_worker ws (r :: rest) TaskType.SHORT now with
      | some w =>
          obtain ⟨k, hk, h1, h2, h3⟩ := ih
          refine ⟨k + 1, by simpa using hk, ?_, ?_, ?_⟩
          · simp only [drain_short, h, List.map_cons, List.take_succ_cons]
            rw [h1]
          · simp only [drain_short, h, List.drop_succ_cons]
            exact h2
          · simp only [drain_short, h]
            exact h3
      | none =>
          refine ⟨0, Nat.zero_le _, ?_, ?_, Or.inr ?_⟩
          · simp [drain_short, h]
          · simp [drain_short, h]
          · simp [drain_short, h]

theorem drain_long_spec (ws : List Worker) (qshort : List ℕ) (now : Time) (q : List ℕ) :
    ∃ k, k ≤ q.length ∧
      (drain_long ws qshort now q).1.map Prod.snd = q.take k ∧
      (drain_long ws qshort now q).2 = q.drop k ∧
      ((drain_long ws qshort now q).2 = [] ∨
        try_get_worker ws qshort TaskType.LONG now = none) := by
  induction q with
  | nil => exact ⟨0, by simp [drain_long]⟩
  | cons r rest ih =>
      cases h : try_get_worker ws qshort TaskType.LONG now with
      | some w =>
          obtain ⟨k, hk, h1, h2, h3⟩ := ih
          refine ⟨k + 1, by simpa using hk, ?_, ?_, ?_⟩
          · simp only [drain_long, h, List.map_cons, List.take_succ_cons]
            rw [h1]
          · simp only [drain_long, h, List.drop_succ_cons]
            exact h2
          · have hp : (drain_long ws qshort now (r :: rest)).2 =
                (drain_long ws qshort now rest).2 := by
              simp only [drain_long, h]
            rcases h3 with h3 | h3
            · exact Or.inl (hp.trans h3)
            · rw [h] at h3
              cases h3
      | none =>
          refine ⟨0, Nat.zero_le _, ?_, ?_, Or.inr rfl⟩
          · simp [drain_long, h]
          · simp [drain_long, h]

/-- C6: within one `dispatch_queue` run, the SHORT queue is served repeatedly
until it is empty or `try_get_worker SHORT` fails, and only then the LONG queue;
each queue is popped strictly in FIFO order: the dispatched requests are an
initial segment (`take`) of each queue, the SHORT segment placed entirely before
the LONG segment, and the survivors are the corresponding final segment. -/
theorem C6_priority_and_fifo (ws : List Worker) (qs ql : List ℕ) (now : Time) :
    ∃ ks kl, ks ≤ qs.length ∧ kl ≤ ql.length ∧
      (dispatch_queue ws qs ql now).1.map Prod.snd = qs.take ks ++ ql.take kl ∧
      (dispatch_queue ws qs ql now).2.1 = qs.drop ks ∧
      (dispatch_queue ws qs ql now).2.2 = ql.drop kl ∧
      (qs.drop ks = [] ∨ try_get_worker ws (qs.drop ks) TaskType.SHORT now = none) ∧
      (ql.drop kl = [] ∨ try_get_worker ws (qs.drop ks) TaskType.LONG now = none) := by
  obtain ⟨ks, hks, hs1, hs2, hs3⟩ := drain_short_spec ws now qs
  obtain ⟨kl, hkl, hl1, hl2, hl3⟩ := drain_long_spec ws (drain_short ws now qs).2 now ql
  rw [hl2] at hl3
  rw [hs2] at hs3 hl3
  refine ⟨ks, kl, hks, hkl, ?_, ?_, ?_, hs3, hl3⟩
  · simp only [dispatch_queue, List.map_append]
    rw [hs1, hl1]
  · simpa only [dispatch_queue] using hs2
  · simpa only [dispatch_queue] using hl2

theorem run_qhap_tick_skip (s : SchedState) (now : Time)
    (h : now - s.last_rebalance_time < HAP_COOLDOWN) : run_qhap_tick s now = s := by
  simp [run_qhap_tick, h]

theorem run_qhap_tick_cases (s : SchedState) (now : Time) :
    run_qhap_tick s now = s ∨ (run_qhap_tick s now).last_rebalance_time = now := by
  simp only [run_qhap_tick]
  split_ifs with h1 h2 h3
  · exact Or.inl rfl
  · cases hf : s.workers.find? (fun w => decide (w.current_role = TaskType.SHORT)) with
    | none => simp [hf]
    | some target => simp [hf]
  · cases hf : s.workers.reverse.find? (fun w => decide (w.current_role = TaskType.LONG)) with
    | none => simp [hf]
    | some target => simp [hf]
  · exact Or.inl rfl

/-- C7: a rebalancer tick performs a role transition only if the cooldown has
elapsed since `last_rebalance_time`, and every transition records
`last_rebalance_time`; hence if a tick at `t1` performs a transition, a tick
less than `HAP_COOLDOWN` later performs none — at most one transition per
cooldown window. -/
theorem C7_cooldown_at_most_one_transition (s : SchedState) (t1 t2 : Time)
    (h12 : t2 - t1 < HAP_COOLDOWN)
    (htr : (run_qhap_tick s t1).workers.map Worker.current_role ≠
      s.workers.map Worker.current_role) :
    HAP_COOLDOWN ≤ t1 - s.last_rebalance_time ∧
      (run_qhap_tick s t1).last_rebalance_time = t1 ∧
      run_qhap_tick (run_qhap_tick s t1) t2 = run_qhap_tick s t1 := by
  have hgate : ¬ t1 - s.last_rebalance_time < HAP_COOLDOWN := by
    intro hc
    exact htr (by rw [run_qhap_tick_skip s t1 hc])
  rcases run_qhap_tick_cases s t1 with he | hl
  · exact absurd (by rw [he]) htr
  · refine ⟨le_of_not_lt hgate, hl, run_qhap_tick_skip _ _ ?_⟩
    rw [hl]
    exact h12

/-- Witness for C7: on `backlogFixture` the tick at `t = 10` scales up; the
tick at `t = 12` (2 s later, inside the 5 s cooldown) does nothing. -/
theorem C7_cooldown_at_most_one_transition_witness :
    HAP_COOLDOWN ≤ 10 - backlogFixture.last_rebalance_time ∧
      (run_qhap_tick backlogFixture 10).last_rebalance_time = 10 ∧
      run_qhap_tick (run_qhap_tick backlogFixture 10) 12 =
        run_qhap_tick backlogFixture 10 :=
  C7_cooldown_at_most_one_transition backlogFixture 10 12 (by decide) (by decide)

/-- Counterexample to C8 as stated: calling `dec_requests` on a worker whose
`active_requests` is already `0` still rewrites `last_active_time` to the
current time, although no transition from 1 to 0 occurred. -/
theorem C8_counterexample :
    (Worker.dec_requests
        { id := 3, current_role := TaskType.SHORT, active_requests := 0,
          last_active_time := 3 } 10).last_active_time ≠
      ({ id := 3, current_role := TaskType.SHORT, active_requests := 0,
         last_active_time := 3 } : Worker).last_active_time ∧
    ({ id := 3, current_role := TaskType.SHORT, active_requests := 0,
       last_active_time := 3 } : Worker).active_requests ≠ 1 := by
  decide

/-- C8 amended: `dec_requests` decrements `active_requests` by one, floored at
zero, and `last_active_time` is set to the current time exactly when the
post-decrement count is zero — that is, whenever the pre-call count is `≤ 1`
(which covers the 1 → 0 transition, but also calls at zero) — and at no other
time; `get_idle_duration` returns `0` whenever `active_requests > 0` and
`now - last_active_time` otherwise. -/
theorem C8_release_idle_semantics (w : Worker) (now : Time) :
    (1 ≤ w.active_requests →
        (w.dec_requests now).active_requests = w.active_requests - 1) ∧
    (w.active_requests ≤ 0 → (w.dec_requests now).active_requests = 0) ∧
    ((w.dec_requests now).last_active_time =
      if w.active_requests ≤ 1 then now else w.last_active_time) ∧
    (0 < w.active_requests → w.get_idle_duration now = 0) ∧
    (w.active_requests ≤ 0 → w.get_idle_duration now = now - w.last_active_time) := by
  unfold Worker.dec_requests Worker.get_idle_duration
  refine ⟨fun h => ?_, fun h => ?_, ?_, fun h => ?_, fun h => ?_⟩
  · simp only
    omega
  · simp only
    omega
  · simp only
    by_cases h1 : w.active_requests ≤ 1
    · rw [if_pos (by omega), if_pos h1]
    · rw [if_neg (by omega), if_neg h1]
  · rw [if_pos h]
  · rw [if_neg (by omega)]

/-- C9: on any forwarding outcome — a backend response with any status code, or
a raised network error — `run_task` releases the handle's capacity exactly once
(`process_request` emits one `inc` and one `dec`, and the load is restored),
resolves the caller's future exactly once and terminally (`set_result` with the
passed-through response on a backend answer, `set_exception` on a raised error),
performs no retry, and itself returns normally (the exception is swallowed, so
the dispatch machinery is not crashed). -/
theorem C9_forwarding_failure_handling (w : Worker) (outcome : ForwardOutcome)
    (now : Time) (hw : 0 ≤ w.active_requests) :
    (run_task w outcome now).1.active_requests = w.active_requests ∧
    (run_task w outcome now).2.1 = [CapEvent.inc, CapEvent.dec] ∧
    (∀ status, outcome = ForwardOutcome.response status →
      (run_task w outcome now).2.2 = FutureResolution.result status) ∧
    (outcome = ForwardOutcome.netError →
      (run_task w outcome now).2.2 = FutureResolution.exception) := by
  cases outcome with
  | response status =>
      refine ⟨?_, rfl, ?_, ?_⟩
      · show (max 0 (w.active_requests + 1 - 1)) = w.active_requests
        omega
      · intro s hs
        cases hs
        rfl
      · intro hne
        cases hne
  | netError =>
      refine ⟨?_, rfl, ?_, fun _ => rfl⟩
      · show (max 0 (w.active_requests + 1 - 1)) = w.active_requests
        omega
      · intro s hs
        cases hs

/-- Witness for C9: a failing forward on an idle worker. -/
theorem C9_forwarding_failure_handling_witness :
    (run_task idleWorker ForwardOutcome.netError 5).1.active_requests =
      idleWorker.active_requests ∧
    (run_task idleWorker ForwardOutcome.netError 5).2.1 =
      [CapEvent.inc, CapEvent.dec] ∧
    (∀ status, ForwardOutcome.netError = ForwardOutcome.response status →
      (run_task idleWorker ForwardOutcome.netError 5).2.2 =
        FutureResolution.result status) ∧
    (ForwardOutcome.netError = ForwardOutcome.netError →
      (run_task idleWorker ForwardOutcome.netError 5).2.2 =
        FutureResolution.exception) :=
  C9_forwarding_failure_handling idleWorker ForwardOutcome.netError 5 (by decide)

theorem length_foldl_append (l : List String) (init : String) :
    (l.foldl (fun r s => r ++ s) init).length = init.length + (l.map String.length).sum := by
  induction l generalizing init with
  | nil => simp
  | cons a tl ih =>
      simp only [List.foldl_cons, ih, String.length_append, List.map_cons, List.sum_cons]
      omega

theorem string_join_length (l : List String) :
    (String.join l).length = (l.map String.length).sum := by
  have h := length_foldl_append l ""
  simpa [String.join] using h

/-- C10: the class of an incoming request is LONG exactly when
`estimate_token_count` of its messages exceeds the threshold 3000, and
`estimate_token_count` is the total character count of all messages' `content`
fields, integer-divided by 4 (0 for an empty or absent messages list). -/
theorem C10_classification (messages : Option (List String)) :
    classify_request messages =
      (if STATIC_THRESHOLD < ((messages.getD []).map String.length).sum / 4
        then TaskType.LONG else TaskType.SHORT) ∧
    estimate_token_count (messages.getD []) =
      ((messages.getD []).map String.length).sum / 4 := by
  have he : ∀ l : List String,
      estimate_token_count l = (l.map String.length).sum / 4 := by
    intro l
    cases l with
    | nil => simp [estimate_token_count]
    | cons a tl =>
        simp only [estimate_token_count, if_neg (List.cons_ne_nil a tl)]
        rw [string_join_length]
  constructor
  · rw [classify_request, he (messages.getD [])]
  · exact he (messages.getD [])

/-- C1 (code defect): a reachable state in which a worker's `active_requests`
exceeds `WORKER_CONCURRENCY_LIMIT`.  `dispatch_queue` only creates `run_task`s;
`inc_requests` runs when a created task starts, after the whole drain loop, so
a single drain can place two queued requests on a worker with one free slot
(its stale `active_requests = 7` passes `can_accept` twice), driving the count
to 9 > 8.  Capacity is therefore not consumed at placement time and the
documented per-worker concurrency limit is violated. -/
theorem C1_limit_exceeded_reachable :
    ∃ s, Reachable s ∧ ∃ w ∈ s.workers,
      WORKER_CONCURRENCY_LIMIT < w.active_requests :=
  ⟨runTrace initState c1Trace,
    runTrace_reachable c1Trace initState Reachable.init (by decide),
    by decide⟩

/-- Counterexample to C2: after the `c2Trace` admissions (LONG backlog of 11),
the rebalancer tick at `t = 10` performs a scale-up transition, but no
`dispatch_queue` is triggered: the LONG queue is untouched, no dispatch task
is created and no `run_task` is pending, even though a queued LONG request is
placeable on the converted worker in the post-transition state. -/
theorem C2_counterexample :
    TraceOk initState c2Trace ∧
    guard (Action.tick 10) (runTrace initState c2Trace) ∧
    ((applyAction (Action.tick 10) (runTrace initState c2Trace)).workers.map
        Worker.current_role ≠
      (runTrace initState c2Trace).workers.map Worker.current_role) ∧
    (applyAction (Action.tick 10) (runTrace initState c2Trace)).queue_long =
      (runTrace initState c2Trace).queue_long ∧
    (runTrace initState c2Trace).queue_long ≠ [] ∧
    (applyAction (Action.tick 10) (runTrace initState c2Trace)).pending = [] ∧
    (applyAction (Action.tick 10) (runTrace initState c2Trace)).dispatchPending = 0 ∧
    (try_get_worker
        (applyAction (Action.tick 10) (runTrace initState c2Trace)).workers
        (applyAction (Action.tick 10) (runTrace initState c2Trace)).queue_short
        TaskType.LONG 10).isSome = true := by
  decide

/-- C2 amended: a rebalancer tick never triggers `dispatch_queue`; it changes
only worker roles and `last_rebalance_time`, leaving both wait queues, the
pending `run_task`s, the in-flight set and the count of created dispatch tasks
unchanged.  Queued requests made placeable by a role change are dispatched only
when a later `release` on some handle schedules a `dispatch_queue` run. -/
theorem C2_tick_never_drains (s : SchedState) (now : Time) :
    (run_qhap_tick s now).queue_long = s.queue_long ∧
    (run_qhap_tick s now).queue_short = s.queue_short ∧
    (run_qhap_tick s now).pending = s.pending ∧
    (run_qhap_tick s now).inflight = s.inflight ∧
    (run_qhap_tick s now).dispatchPending = s.dispatchPending := by
  simp only [run_qhap_tick]
  split_ifs with h1 h2 h3
  · exact ⟨rfl, rfl, rfl, rfl, rfl⟩
  · cases hf : s.workers.find? (fun w => decide (w.current_role = TaskType.SHORT)) with
    | none => simp [hf]
    | some target => simp [hf]
  · cases hf : s.workers.reverse.find? (fun w => decide (w.current_role = TaskType.LONG)) with
    | none => simp [hf]
    | some target => simp [hf]
  · exact ⟨rfl, rfl, rfl, rfl, rfl⟩

end AdaSplit
